import Mathlib

/-!
Verification of the biosatq QKD / key-buffer / AEAD pipeline.

Shallow embedding conventions:
* bit strings (Python strings of the characters 0 and 1) are `List Bool`;
* byte strings are `List ℕ` with each byte understood modulo 256;
* the process-wide randomness (`random`, `np.random`, `os.urandom`) is passed
  in explicitly as oracle inputs (lists of uniform draws / a fresh nonce
  argument); theorems quantify over all oracle values of the right shape;
* Python floats are idealized as exact rationals (`ℚ`) for uniform draws and
  probabilities, and as reals (`ℝ`) where the binary entropy is involved;
* a Python function that can raise becomes `Except String _`.
-/

set_option maxRecDepth 8000

namespace BioSatQ

/-! ### AEAD pipeline — src/crypto_utils.py -/

/-- Big-endian byte expansion of a natural number, as in Python
`int.to_bytes(length_bytes, "big")`: byte `j` is `n / 256 ^ (len - 1 - j) % 256`. -/
def natToBytesBE (len n : ℕ) : List ℕ :=
  (List.range len).map (fun j => n / 256 ^ (len - 1 - j) % 256)

/-- Value of a bit string read as a base-2 numeral, as in Python `int(s, 2)`. -/
def bitsToNat (bits : List Bool) : ℕ :=
  bits.foldl (fun a b => 2 * a + cond b 1 0) 0

/-- src/crypto_utils.py `bits_to_bytes(key_bits, length_bytes=16)`: raises
`ValueError("Not enough key bits")` when fewer than `length_bytes * 8` bits are
supplied, otherwise converts the first `length_bytes * 8` bits, read as a
big-endian binary numeral, into `length_bytes` bytes.  (The Python default
argument `length_bytes=16` is passed explicitly at every call site here.) -/
def bits_to_bytes (key_bits : List Bool) (length_bytes : ℕ) : Except String (List ℕ) :=
  if key_bits.length < length_bytes * 8 then Except.error "Not enough key bits"
  else Except.ok (natToBytesBE length_bytes (bitsToNat (key_bits.take (length_bytes * 8))))

/-- Modelled from the spec: keystream byte `i` of the AEAD cipher model.  The
concrete AES-GCM primitive lives in the external `cryptography` library and is
not under src/; the spec (§4.4) only requires an AEAD cipher with a 128-bit
key, 96-bit nonce and 128-bit tag whose decryption inverts encryption under
the same key and nonce and fails closed otherwise.  The keystream mixes key,
nonce and position. -/
def ks (key nonce : List ℕ) (i : ℕ) : ℕ :=
  (key.getD (i % 16) 0 + 3 * nonce.getD (i % 12) 0 + 7 * i) % 256

/-- Modelled from the spec: XOR a byte list against the keystream starting at
position `i`.  XOR-masking is an involution, which gives the AEAD round trip. -/
def maskFrom (key nonce : List ℕ) (i : ℕ) : List ℕ → List ℕ
  | [] => []
  | b :: rest => (b ^^^ ks key nonce i) :: maskFrom key nonce (i + 1) rest

/-- Modelled from the spec: the 16-byte (128-bit) authentication tag of the
AEAD cipher model, a keyed digest of the ciphertext body. -/
def gtag (key nonce ct : List ℕ) : List ℕ :=
  (List.range 16).map (fun j =>
    (ct.foldl (fun a b => (2 * a + b) % 256) 0 + key.getD j 0 + 5 * nonce.getD (j % 12) 0 + j) % 256)

/-- Modelled from the spec: `AESGCM(key).encrypt(nonce, pt, None)` — the AEAD
primitive of the external `cryptography` library (not under src/).  Returns
ciphertext body followed by the 16-byte authentication tag. -/
def AESGCM.encrypt (key nonce pt : List ℕ) : List ℕ :=
  maskFrom key nonce 0 pt ++ gtag key nonce (maskFrom key nonce 0 pt)

/-- Modelled from the spec: `AESGCM(key).decrypt(nonce, ct, None)` — splits off
the trailing 16-byte tag, recomputes it over the ciphertext body and fails
closed (`InvalidTag`, releasing no plaintext) on mismatch or malformed length;
otherwise unmasks the body. -/
def AESGCM.decrypt (key nonce ct_and_tag : List ℕ) : Except String (List ℕ) :=
  let body := ct_and_tag.take (ct_and_tag.length - 16)
  let tag := ct_and_tag.drop (ct_and_tag.length - 16)
  if 16 ≤ ct_and_tag.length ∧ tag = gtag key nonce body then
    Except.ok (maskFrom key nonce 0 body)
  else Except.error "InvalidTag"

/-- src/crypto_utils.py `aesgcm_encrypt_with_bits(key_bits, plaintext_bytes)`:
derives a 16-byte key from the first 128 bits, encrypts under a fresh 12-byte
nonce (`os.urandom(12)`, here the explicit oracle argument `nonce`) and
returns `nonce ++ ciphertext-and-tag`. -/
def aesgcm_encrypt_with_bits (key_bits : List Bool) (nonce plaintext_bytes : List ℕ) :
    Except String (List ℕ) :=
  match bits_to_bytes key_bits 16 with
  | Except.error e => Except.error e
  | Except.ok key => Except.ok (nonce ++ AESGCM.encrypt key nonce plaintext_bytes)

/-- src/crypto_utils.py `aesgcm_decrypt_with_bits(key_bits, ciphertext_bytes)`:
derives the same 16-byte key, splits the payload into the first 12 bytes
(nonce) and the remainder (ciphertext and tag) and decrypts. -/
def aesgcm_decrypt_with_bits (key_bits : List Bool) (ciphertext_bytes : List ℕ) :
    Except String (List ℕ) :=
  match bits_to_bytes key_bits 16 with
  | Except.error e => Except.error e
  | Except.ok key =>
      AESGCM.decrypt key (ciphertext_bytes.take 12) (ciphertext_bytes.drop 12)

/-! ### Key buffer and ingest — src/backend/main.py -/

/-- The three response shapes returned by src/backend/main.py `ingest`:
the secure path (`{"status":"ok","secure":True,"ml":...,"key_buffer_len":...}`,
where the record handed to `predict_risk` came from the decrypted bytes),
the caught-decryption-failure path (`{"status":"error","error":...,
"key_buffer_len":...}`), and the insecure fallback path
(`{"status":"ok","secure":False,"ml":...,"reason":...,"key_buffer_len":...}`,
where the record handed to `predict_risk` is the original payload).
The `forwarded` field records the serialized bytes of the record handed to the
downstream risk evaluator (`predict_risk` is an external collaborator). -/
inductive IngestResult where
  | secureOk (forwarded : List ℕ) (key_buffer_len : ℕ)
  | decryptError (msg : String) (key_buffer_len : ℕ)
  | insecureOk (forwarded : List ℕ) (reason : String) (key_buffer_len : ℕ)
deriving DecidableEq

/-- src/backend/main.py `ingest`: `payload_bytes` is `json.dumps(data).encode()`
(the serialized inbound record) and `nonce` is the 12-byte `os.urandom(12)`
oracle consumed by the encryption call.  If the key buffer holds at least 128
bits the first 128 bits are withdrawn (`KEY_BUFFER = KEY_BUFFER[128:]`), the
payload is encrypted and immediately decrypted with that chunk, and the
decrypted record is forwarded; otherwise the original payload is forwarded
with reason `"not_enough_qkd_bits"`.  The returned pair is (HTTP response or
uncaught exception, key buffer after the call); an exception raised by the
encryption call itself is not caught in the Python code and would propagate
after the buffer was already shortened. -/
def ingest (key_buffer : List Bool) (payload_bytes nonce : List ℕ) :
    Except String IngestResult × List Bool :=
  if 128 ≤ key_buffer.length then
    let key_bits := key_buffer.take 128
    let buf' := key_buffer.drop 128
    match aesgcm_encrypt_with_bits key_bits nonce payload_bytes with
    | Except.error e => (Except.error e, buf')
    | Except.ok ct =>
        match aesgcm_decrypt_with_bits key_bits ct with
        | Except.error e =>
            (Except.ok (IngestResult.decryptError ("Decryption Failed: " ++ e) buf'.length), buf')
        | Except.ok pt => (Except.ok (IngestResult.secureOk pt buf'.length), buf')
  else
    (Except.ok (IngestResult.insecureOk payload_bytes "not_enough_qkd_bits" key_buffer.length),
      key_buffer)

/-- One operation on the process-wide `KEY_BUFFER`: an append performed by
`run_qkd` (`KEY_BUFFER += res["sifted_key"]`) or an `ingest` call. -/
inductive BufOp where
  | append (bits : List Bool)
  | ingestOp (payload nonce : List ℕ)

/-- Effect of one buffer operation on the key buffer. -/
def applyOp (buf : List Bool) : BufOp → List Bool
  | BufOp.append bits => buf ++ bits
  | BufOp.ingestOp payload nonce => (ingest buf payload nonce).2

/-- Key buffer reached after a sequence of operations starting from `buf`. -/
def runFrom (buf : List Bool) : List BufOp → List Bool
  | [] => buf
  | op :: rest => runFrom (applyOp buf op) rest

/-- Bits appended by one operation. -/
def appendedOf : BufOp → ℕ
  | BufOp.append bits => bits.length
  | BufOp.ingestOp _ _ => 0

/-- Total bits ever appended over a sequence of operations. -/
def totalAppended (ops : List BufOp) : ℕ := (ops.map appendedOf).sum

/-- Bits withdrawn by one operation applied to buffer `buf`: an ingest call
withdraws exactly 128 bits when at least 128 are available, else nothing. -/
def withdrawnOf (buf : List Bool) : BufOp → ℕ
  | BufOp.append _ => 0
  | BufOp.ingestOp _ _ => if 128 ≤ buf.length then 128 else 0

/-- Total bits ever withdrawn over a sequence of operations from `buf`. -/
def withdrawnFrom (buf : List Bool) : List BufOp → ℕ
  | [] => 0
  | op :: rest => withdrawnOf buf op + withdrawnFrom (applyOp buf op) rest

/-! ### BB84 session engine — src/biosat_core/quantum_sim.py -/

/-- A measurement basis, `random.choice(['Z','X'])`. -/
inductive Basis where
  | Z
  | X
deriving DecidableEq

/-- Oracle inputs consumed by one `transmit_bb84` call: `a_bits` and
`mismatch_bits` are `random.randint(0,1)` draws, `a_bases` and `b_bases` are
`random.choice(['Z','X'])` draws, `arrival_draws` is `np.random.rand(n)`,
`error_draws` are the `random.random()` draws consumed per photon, and
`qber_sample` is the index list produced by
`random.sample(range(len(a_sift)), sample_size)` (distinct indices below the
sifted count, in draw order). -/
structure BB84Sample where
  a_bits : List Bool
  a_bases : List Basis
  arrival_draws : List ℚ
  b_bases : List Basis
  error_draws : List ℚ
  mismatch_bits : List Bool
  qber_sample : List ℕ

/-- Lengths of the per-photon oracle streams match the photon count. -/
def BB84Sample.wf (r : BB84Sample) (n : ℕ) : Prop :=
  r.a_bits.length = n ∧ r.a_bases.length = n ∧ r.arrival_draws.length = n ∧
    r.b_bases.length = n ∧ r.error_draws.length = n ∧ r.mismatch_bits.length = n

/-- src/biosat_core/quantum_sim.py, receiver outcome `b_results[i]`: `None`
when the photon does not arrive (`np.random.rand()[i] < trans_prob` fails);
the sender bit flipped with probability `error_prob` when the bases match;
an independent uniform bit when they mismatch. -/
def b_result (trans_prob error_prob : ℚ) (r : BB84Sample) (i : ℕ) : Option Bool :=
  if ¬ (r.arrival_draws.getD i 1 < trans_prob) then none
  else if r.a_bases.getD i Basis.Z = r.b_bases.getD i Basis.X then
    some (xor (r.a_bits.getD i false) (decide (r.error_draws.getD i 1 < error_prob)))
  else some (r.mismatch_bits.getD i false)

/-- src/biosat_core/quantum_sim.py `sifted_indices`: indices whose photon
arrived and whose bases agree. -/
def sifted_indices (n_photons : ℕ) (trans_prob : ℚ) (r : BB84Sample) : List ℕ :=
  (List.range n_photons).filter (fun i =>
    decide (r.arrival_draws.getD i 1 < trans_prob) &&
      decide (r.a_bases.getD i Basis.Z = r.b_bases.getD i Basis.X))

/-- src/biosat_core/quantum_sim.py `a_sift`: sender bits at the sifted indices. -/
def a_sift (n_photons : ℕ) (trans_prob : ℚ) (r : BB84Sample) : List Bool :=
  (sifted_indices n_photons trans_prob r).map (fun i => r.a_bits.getD i false)

/-- src/biosat_core/quantum_sim.py `b_sift`: receiver outcomes at the sifted
indices.  At every sifted index `b_results[i]` is an actual bit (never `None`),
so the `Option.getD false` here is never exercised. -/
def b_sift (n_photons : ℕ) (trans_prob error_prob : ℚ) (r : BB84Sample) : List Bool :=
  (sifted_indices n_photons trans_prob r).map (fun i =>
    (b_result trans_prob error_prob r i).getD false)

/-- src/biosat_core/quantum_sim.py `sample_size`:
`max(1, int(0.2 * len(a_sift))) if a_sift else 0`.  In IEEE-754 double
arithmetic `int(0.2 * s)` equals `s / 5` rounded down (exactly `⌊s / 5⌋`) for
every list length `s` attainable in memory (`s < 2^53`): for `s` divisible
by 5 the product `s * 0.2` rounds to the exact integer `s / 5`, and otherwise
the fractional part of `s / 5` is at least `1/5`, far above the rounding
error, so truncation is unaffected.  Hence the `ℕ`-division model. -/
def sample_size (sifted : ℕ) : ℕ := if sifted = 0 then 0 else max 1 (sifted / 5)

/-- src/biosat_core/quantum_sim.py `errors`: number of sender/receiver
mismatches over the QBER sample indices. -/
def qber_mismatches (n_photons : ℕ) (trans_prob error_prob : ℚ) (r : BB84Sample) : ℕ :=
  r.qber_sample.countP (fun k =>
    !((a_sift n_photons trans_prob r).getD k false ==
      (b_sift n_photons trans_prob error_prob r).getD k false))

/-- The QBER-sample oracle is well-formed for sifted count `s`: `random.sample`
returns `sample_size s` distinct indices drawn without replacement from
`range(s)`. -/
def BB84Sample.sampleWf (r : BB84Sample) (s : ℕ) : Prop :=
  r.qber_sample.length = sample_size s ∧ r.qber_sample.Nodup ∧
    ∀ k ∈ r.qber_sample, k < s

/-- src/biosat_core/quantum_sim.py `qber`: mismatches over the sample divided
by the sample size when `sample_size > 0 and len(a_sift) >= sample_size`,
else `0.0`. -/
def qber_of (n_photons : ℕ) (trans_prob error_prob : ℚ) (r : BB84Sample) : ℚ :=
  let s := (a_sift n_photons trans_prob r).length
  if 0 < sample_size s ∧ sample_size s ≤ s then
    (qber_mismatches n_photons trans_prob error_prob r : ℚ) / (sample_size s : ℚ)
  else 0

/-- src/biosat_core/quantum_sim.py `bin_entropy`: `0.0` when `p <= 0 or
p >= 1`, else the binary Shannon entropy `-p*log2(p) - (1-p)*log2(1-p)`
(float arithmetic idealized as `ℝ`). -/
noncomputable def bin_entropy (p : ℚ) : ℝ :=
  if p ≤ 0 ∨ 1 ≤ p then 0
  else -(p : ℝ) * Real.logb 2 (p : ℝ) - (1 - (p : ℝ)) * Real.logb 2 (1 - (p : ℝ))

/-- src/biosat_core/quantum_sim.py `R_secure`:
`max(0, int(len(a_sift) * max(0.0, 1 - bin_entropy(qber) - leak_ec)))` with
`leak_ec = 0.1`; the argument of `int` is nonnegative, so Python's
truncation toward zero is the floor. -/
noncomputable def R_secure (sifted : ℕ) (qber : ℚ) : ℕ :=
  (max 0 ⌊(sifted : ℝ) * max 0 (1 - bin_entropy qber - 1 / 10)⌋).toNat

/-- The dictionary returned by src/biosat_core/quantum_sim.py `transmit_bb84`;
`sifted_key` holds the `demo_key` value (the receiver's sifted bits truncated
to `R_secure`), which is what the caller `run_qkd` appends to `KEY_BUFFER`. -/
structure SessionResult where
  n_sent : ℕ
  n_sifted : ℕ
  qber : ℚ
  R_secure_bits : ℕ
  sifted_key : List Bool

/-- src/biosat_core/quantum_sim.py `transmit_bb84(n_photons, trans_prob,
error_prob)` run against the oracle `r`. -/
noncomputable def transmit_bb84 (n_photons : ℕ) (trans_prob error_prob : ℚ)
    (r : BB84Sample) : SessionResult :=
  let s := (a_sift n_photons trans_prob r).length
  let q := qber_of n_photons trans_prob error_prob r
  { n_sent := n_photons
    n_sifted := s
    qber := q
    R_secure_bits := R_secure s q
    sifted_key := (b_sift n_photons trans_prob error_prob r).take (R_secure s q) }

/-- Modelled from the spec: the binary (Shannon) entropy function `H2` in
bits with the convention `H2(0) = H2(1) = 0`, as named by the secure-rate
formula of spec §4.2.  Kept separate from the source-derived `bin_entropy`
so the two can be compared. -/
noncomputable def H2 (p : ℝ) : ℝ :=
  if p = 0 ∨ p = 1 then 0
  else -p * Real.logb 2 p - (1 - p) * Real.logb 2 (1 - p)

/-! ### Concrete inputs used by witnesses and counterexamples -/

/-- A 128-bit key chunk. -/
def exChunk : List Bool :=
  (List.range 128).map (fun i => decide (i % 3 = 0))

/-- A 129-bit key string sharing its first 128 bits with `exChunk`. -/
def exChunkLonger : List Bool := exChunk ++ [true]

/-- A 12-byte nonce. -/
def exNonce : List ℕ := (List.range 12).map (fun i => (17 * i + 5) % 256)

/-- A short byte payload. -/
def exPayload : List ℕ := [72, 105, 33]

/-- Oracle for a 2-photon session where both photons arrive, both bases
agree, and no error flip happens.  Sifted count 2, sample size 1, QBER 0. -/
def exSession : BB84Sample :=
  { a_bits := [true, false]
    a_bases := [Basis.Z, Basis.Z]
    arrival_draws := [0, 0]
    b_bases := [Basis.Z, Basis.Z]
    error_draws := [1, 1]
    mismatch_bits := [false, false]
    qber_sample := [0] }

/-- Oracle with all streams empty, for a 0-photon session. -/
def exEmptySession : BB84Sample :=
  { a_bits := []
    a_bases := []
    arrival_draws := []
    b_bases := []
    error_draws := []
    mismatch_bits := []
    qber_sample := [] }

/-- Oracle for a 1-photon session used with out-of-range probabilities:
the arrival draw 1 is below `trans_prob = 2`, bases agree, and the error
draw 1 is not below `error_prob = -1`. -/
def exOutOfRange : BB84Sample :=
  { a_bits := [true]
    a_bases := [Basis.Z]
    arrival_draws := [1]
    b_bases := [Basis.Z]
    error_draws := [1]
    mismatch_bits := [false]
    qber_sample := [0] }

/-- Oracle for a 6-photon session where every photon arrives and every basis
pair agrees: sifted count 6. -/
def exSixSifted : BB84Sample :=
  { a_bits := [true, false, true, false, true, false]
    a_bases := List.replicate 6 Basis.Z
    arrival_draws := List.replicate 6 0
    b_bases := List.replicate 6 Basis.Z
    error_draws := List.replicate 6 1
    mismatch_bits := List.replicate 6 false
    qber_sample := [3] }

/-- A sequence of buffer operations exercising append, a successful
withdrawal and a failed withdrawal. -/
def exOps : List BufOp :=
  [BufOp.append (List.replicate 130 true),
   BufOp.ingestOp exPayload exNonce,
   BufOp.ingestOp exPayload exNonce]

/-- A 130-bit key buffer. -/
def exBuf : List Bool := List.replicate 130 true

/-! ### AEAD lemmas -/

theorem maskFrom_length (key nonce : List ℕ) (i : ℕ) (l : List ℕ) :
    (maskFrom key nonce i l).length = l.length := by
  induction l generalizing i with
  | nil => rfl
  | cons b rest ih => simp [maskFrom, ih]

theorem maskFrom_maskFrom (key nonce : List ℕ) (i : ℕ) (l : List ℕ) :
    maskFrom key nonce i (maskFrom key nonce i l) = l := by
  induction l generalizing i with
  | nil => rfl
  | cons b rest ih => simp [maskFrom, Nat.xor_cancel_right, ih]

theorem AESGCM.decrypt_encrypt (key nonce pt : List ℕ) :
    AESGCM.decrypt key nonce (AESGCM.encrypt key nonce pt) = Except.ok pt := by
  have h1 : (maskFrom key nonce 0 pt ++ gtag key nonce (maskFrom key nonce 0 pt)).length - 16 =
      (maskFrom key nonce 0 pt).length := by
    simp [gtag]
  have h2 : 16 ≤ (maskFrom key nonce 0 pt ++ gtag key nonce (maskFrom key nonce 0 pt)).length := by
    simp [gtag]
  simp only [AESGCM.encrypt, AESGCM.decrypt]
  rw [h1, List.take_left, List.drop_left, if_pos ⟨h2, rfl⟩, maskFrom_maskFrom]

theorem bits_to_bytes_ok (key_bits : List Bool) (h : 128 ≤ key_bits.length) :
    bits_to_bytes key_bits 16 =
      Except.ok (natToBytesBE 16 (bitsToNat (key_bits.take 128))) := by
  rw [bits_to_bytes, if_neg (by omega)]

/-- With a 128-bit (or longer) key string and a 12-byte nonce, the encrypt
wrapper succeeds and the decrypt wrapper inverts it. -/
theorem aead_round_trip (key_bits : List Bool) (h : 128 ≤ key_bits.length)
    (nonce pt : List ℕ) (hn : nonce.length = 12) :
    ∃ key, bits_to_bytes key_bits 16 = Except.ok key ∧
      aesgcm_encrypt_with_bits key_bits nonce pt =
        Except.ok (nonce ++ AESGCM.encrypt key nonce pt) ∧
      aesgcm_decrypt_with_bits key_bits (nonce ++ AESGCM.encrypt key nonce pt) =
        Except.ok pt := by
  refine ⟨natToBytesBE 16 (bitsToNat (key_bits.take 128)), bits_to_bytes_ok key_bits h, ?_, ?_⟩
  · rw [aesgcm_encrypt_with_bits, bits_to_bytes_ok key_bits h]
  · rw [aesgcm_decrypt_with_bits, bits_to_bytes_ok key_bits h]
    have ht : (nonce ++ AESGCM.encrypt (natToBytesBE 16 (bitsToNat (key_bits.take 128)))
        nonce pt).take 12 = nonce := by
      rw [← hn, List.take_left]
    have hd : (nonce ++ AESGCM.encrypt (natToBytesBE 16 (bitsToNat (key_bits.take 128)))
        nonce pt).drop 12 = AESGCM.encrypt (natToBytesBE 16 (bitsToNat (key_bits.take 128)))
        nonce pt := by
      rw [← hn, List.drop_left]
    rw [ht, hd]
    exact AESGCM.decrypt_encrypt _ _ _

/-! ### Claim C1: AEAD round trip -/

/-- C1: for every 128-bit key chunk and every byte payload (including the
empty payload), decrypting the result of encrypting that payload with the
same chunk returns the original payload.  The fresh nonce drawn by the
encryption call is the 12-byte oracle `nonce`. -/
theorem C1_aead_round_trip (chunk : List Bool) (hk : chunk.length = 128)
    (nonce pt ct : List ℕ) (hn : nonce.length = 12)
    (henc : aesgcm_encrypt_with_bits chunk nonce pt = Except.ok ct) :
    aesgcm_decrypt_with_bits chunk ct = Except.ok pt := by
  obtain ⟨key, hkey, henc', hdec⟩ := aead_round_trip chunk (le_of_eq hk.symm) nonce pt hn
  have hct : ct = nonce ++ AESGCM.encrypt key nonce pt :=
    Except.ok.inj (henc.symm.trans henc')
  rw [hct]
  exact hdec

/-- Witness for C1 at a concrete 128-bit chunk, nonce and payload. -/
theorem C1_aead_round_trip_witness :
    aesgcm_decrypt_with_bits exChunk
      ((aesgcm_encrypt_with_bits exChunk exNonce exPayload).toOption.getD []) =
      Except.ok exPayload :=
  C1_aead_round_trip exChunk (by decide) exNonce exPayload
    ((aesgcm_encrypt_with_bits exChunk exNonce exPayload).toOption.getD [])
    (by decide) rfl

/-! ### Claim C9: short key strings are rejected before any cipher operation -/

/-- C9: for every key bit string of fewer than 128 bits and every input, both
the AEAD encrypt and the AEAD decrypt wrappers fail with the
insufficient-key-material error (`ValueError("Not enough key bits")`) raised
by key derivation, before any cipher operation: no ciphertext or plaintext is
produced. -/
theorem C9_short_key_rejected (key_bits : List Bool) (h : key_bits.length < 128)
    (nonce pt ct : List ℕ) :
    aesgcm_encrypt_with_bits key_bits nonce pt = Except.error "Not enough key bits" ∧
    aesgcm_decrypt_with_bits key_bits ct = Except.error "Not enough key bits" := by
  have hb : bits_to_bytes key_bits 16 = Except.error "Not enough key bits" := by
    rw [bits_to_bytes, if_pos (by omega)]
  constructor
  · rw [aesgcm_encrypt_with_bits, hb]
  · rw [aesgcm_decrypt_with_bits, hb]

/-- Witness for C9 at a one-bit key string. -/
theorem C9_short_key_rejected_witness :
    aesgcm_encrypt_with_bits [true] exNonce exPayload =
      Except.error "Not enough key bits" ∧
    aesgcm_decrypt_with_bits [true] exPayload = Except.error "Not enough key bits" :=
  C9_short_key_rejected [true] (by decide) exNonce exPayload exPayload

/-! ### Claim C10: only the first 128 key bits matter -/

/-- C10: key derivation uses only the first 128 bits of the supplied bit
string — for every bit string of length at least 128 and the same nonce
draw, encryption coincides with encryption under the 128-bit head, and
decryption recovers the payload whenever the first 128 bits of the supplied
string equal the first 128 bits of the encrypting key; bits beyond the first
128 are silently ignored rather than rejected. -/
theorem C10_key_head_only :
    (∀ (bits : List Bool) (nonce pt : List ℕ), 128 ≤ bits.length →
      aesgcm_encrypt_with_bits bits nonce pt =
        aesgcm_encrypt_with_bits (bits.take 128) nonce pt) ∧
    (∀ (k1 k2 : List Bool) (nonce pt ct : List ℕ), 128 ≤ k1.length → 128 ≤ k2.length →
      k1.take 128 = k2.take 128 → nonce.length = 12 →
      aesgcm_encrypt_with_bits k1 nonce pt = Except.ok ct →
      aesgcm_decrypt_with_bits k2 ct = Except.ok pt) := by
  have hbb : ∀ (k1 k2 : List Bool), 128 ≤ k1.length → 128 ≤ k2.length →
      k1.take 128 = k2.take 128 → bits_to_bytes k1 16 = bits_to_bytes k2 16 := by
    intro k1 k2 h1 h2 h12
    rw [bits_to_bytes_ok k1 h1, bits_to_bytes_ok k2 h2, h12]
  constructor
  · intro bits nonce pt h
    have ht : 128 ≤ (bits.take 128).length := by
      rw [List.length_take]; omega
    rw [aesgcm_encrypt_with_bits, aesgcm_encrypt_with_bits,
      hbb bits (bits.take 128) h ht (by simp [List.take_take])]
  · intro k1 k2 nonce pt ct h1 h2 h12 hn henc
    obtain ⟨key, hkey, henc', hdec⟩ := aead_round_trip k1 h1 nonce pt hn
    have hct : ct = nonce ++ AESGCM.encrypt key nonce pt :=
      Except.ok.inj (henc.symm.trans henc')
    have hcong : aesgcm_decrypt_with_bits k2 ct = aesgcm_decrypt_with_bits k1 ct := by
      rw [aesgcm_decrypt_with_bits, aesgcm_decrypt_with_bits, hbb k2 k1 h2 h1 h12.symm]
    rw [hcong, hct]
    exact hdec

/-- Witness for C10 at a 129-bit key string and its 128-bit head. -/
theorem C10_key_head_only_witness :
    aesgcm_encrypt_with_bits exChunkLonger exNonce exPayload =
      aesgcm_encrypt_with_bits (exChunkLonger.take 128) exNonce exPayload ∧
    aesgcm_decrypt_with_bits exChunk
      ((aesgcm_encrypt_with_bits exChunkLonger exNonce exPayload).toOption.getD []) =
      Except.ok exPayload :=
  ⟨C10_key_head_only.1 exChunkLonger exNonce exPayload (by decide),
   C10_key_head_only.2 exChunkLonger exChunk exNonce exPayload
     ((aesgcm_encrypt_with_bits exChunkLonger exNonce exPayload).toOption.getD [])
     (by decide) (by decide) (by decide) (by decide) rfl⟩

/-! ### Key buffer lemmas -/

theorem ingest_snd (buf : List Bool) (payload nonce : List ℕ) :
    (ingest buf payload nonce).2 = if 128 ≤ buf.length then buf.drop 128 else buf := by
  simp only [ingest]
  by_cases h : 128 ≤ buf.length
  · rw [if_pos h, if_pos h]
    split
    · rfl
    · split
      · rfl
      · rfl
  · rw [if_neg h, if_neg h]

theorem applyOp_length (buf : List Bool) (op : BufOp) :
    (applyOp buf op).length + withdrawnOf buf op = buf.length + appendedOf op := by
  cases op with
  | append bits => simp [applyOp, withdrawnOf, appendedOf]
  | ingestOp payload nonce =>
      simp only [applyOp, withdrawnOf, appendedOf, ingest_snd]
      by_cases h : 128 ≤ buf.length
      · rw [if_pos h, if_pos h, List.length_drop]; omega
      · rw [if_neg h, if_neg h]

theorem runFrom_invariant (ops : List BufOp) (buf : List Bool) :
    totalAppended ops + buf.length = withdrawnFrom buf ops + (runFrom buf ops).length := by
  induction ops generalizing buf with
  | nil => simp [totalAppended, withdrawnFrom, runFrom]
  | cons op rest ih =>
      simp only [totalAppended, List.map_cons, List.sum_cons, withdrawnFrom, runFrom]
      have h := applyOp_length buf op
      have h2 := ih (applyOp buf op)
      simp only [totalAppended] at h2
      omega

/-! ### Claim C2: key-buffer conservation -/

/-- C2: starting from the empty buffer, for every sequence of key-buffer
appends (session completions) and ingest calls (withdrawals), the total bits
ever appended equal the total bits ever withdrawn plus the current buffer
length — at every observation point, since the equation holds for every
finite operation sequence — and an ingest call finding fewer than 128 bits
available fails to withdraw and leaves the buffer (hence its length)
unchanged. -/
theorem C2_buffer_conservation :
    (∀ ops : List BufOp,
      totalAppended ops = withdrawnFrom [] ops + (runFrom [] ops).length) ∧
    (∀ (buf : List Bool) (payload nonce : List ℕ), buf.length < 128 →
      (ingest buf payload nonce).2 = buf) := by
  constructor
  · intro ops
    have h := runFrom_invariant ops []
    simpa using h
  · intro buf payload nonce h
    rw [ingest_snd, if_neg (by omega)]

/-- Witness for C2 on a concrete operation sequence and a concrete failed
withdrawal. -/
theorem C2_buffer_conservation_witness :
    totalAppended exOps = withdrawnFrom [] exOps + (runFrom [] exOps).length ∧
    (ingest [true] exPayload exNonce).2 = [true] :=
  ⟨C2_buffer_conservation.1 exOps,
   C2_buffer_conservation.2 [true] exPayload exNonce (by decide)⟩

/-! ### Claim C3: ingest decision rule -/

/-- C3 counterexample: on an empty key buffer the ingest fallback reports the
literal reason string "not_enough_qkd_bits", not "insufficient key material"
as the claim states. -/
theorem C3_reason_counterexample :
    (ingest [] exPayload exNonce).1 =
      Except.ok (IngestResult.insecureOk exPayload "not_enough_qkd_bits" 0) ∧
    IngestResult.insecureOk exPayload "not_enough_qkd_bits" 0 ≠
      IngestResult.insecureOk exPayload "insufficient key material" 0 := by
  exact ⟨rfl, by decide⟩

/-- C3 (amended): if the key buffer holds at least 128 bits, ingest withdraws
exactly the first 128 bits (the buffer becomes its 128-bit tail, its length
dropping by exactly 128), encrypts then immediately decrypts the serialized
payload with that chunk, forwards the decrypted record — equal to the
original payload — to the risk evaluator and reports secure = true; otherwise
it forwards the original payload unmodified, reports secure = false with
reason "not_enough_qkd_bits" (the code's spelling of insufficient key
material) and leaves the buffer unchanged; every branch reports the buffer
length after the operation. -/
theorem C3_ingest_decision (buf : List Bool) (payload nonce : List ℕ)
    (hn : nonce.length = 12) :
    (128 ≤ buf.length →
      (ingest buf payload nonce).2 = buf.drop 128 ∧
      (ingest buf payload nonce).2.length = buf.length - 128 ∧
      (ingest buf payload nonce).1 =
        Except.ok (IngestResult.secureOk payload (buf.length - 128))) ∧
    (buf.length < 128 →
      ingest buf payload nonce =
        (Except.ok (IngestResult.insecureOk payload "not_enough_qkd_bits" buf.length),
          buf)) := by
  constructor
  · intro h128
    have hkey : 128 ≤ (buf.take 128).length := by
      rw [List.length_take]; omega
    obtain ⟨key, hkeyeq, henc, hdec⟩ := aead_round_trip (buf.take 128) hkey nonce payload hn
    have hres : ingest buf payload nonce =
        (Except.ok (IngestResult.secureOk payload (buf.length - 128)), buf.drop 128) := by
      simp only [ingest, if_pos h128, henc, hdec, List.length_drop]
    refine ⟨by rw [hres], ?_, by rw [hres]⟩
    rw [hres, List.length_drop]
  · intro hlt
    have h : ¬ 128 ≤ buf.length := by omega
    simp only [ingest, if_neg h]

/-- Witness for C3 on a 130-bit buffer and on the empty buffer. -/
theorem C3_ingest_decision_witness :
    ((ingest exBuf exPayload exNonce).2 = exBuf.drop 128 ∧
      (ingest exBuf exPayload exNonce).2.length = exBuf.length - 128 ∧
      (ingest exBuf exPayload exNonce).1 =
        Except.ok (IngestResult.secureOk exPayload (exBuf.length - 128))) ∧
    ingest [] exPayload exNonce =
      (Except.ok (IngestResult.insecureOk exPayload "not_enough_qkd_bits" 0), []) :=
  ⟨(C3_ingest_decision exBuf exPayload exNonce (by decide)).1 (by decide),
   (C3_ingest_decision [] exPayload exNonce (by decide)).2 (by decide)⟩

/-! ### BB84 lemmas -/

theorem bin_entropy_nonneg (p : ℚ) : 0 ≤ bin_entropy p := by
  rw [bin_entropy]
  split
  · exact le_refl 0
  · rename_i h
    push_neg at h
    obtain ⟨h0, h1⟩ := h
    have hp0 : (0 : ℝ) < (p : ℝ) := by exact_mod_cast h0
    have hp1 : (p : ℝ) < 1 := by exact_mod_cast h1
    have l1 : Real.logb 2 (p : ℝ) ≤ 0 :=
      Real.logb_nonpos (by norm_num) (le_of_lt hp0) (le_of_lt hp1)
    have l2 : Real.logb 2 (1 - (p : ℝ)) ≤ 0 :=
      Real.logb_nonpos (by norm_num) (by linarith) (by linarith)
    nlinarith

theorem bin_entropy_eq_H2 (q : ℚ) (h0 : 0 ≤ q) (h1 : q ≤ 1) :
    bin_entropy q = H2 (q : ℝ) := by
  rw [bin_entropy, H2]
  by_cases hq : q ≤ 0 ∨ 1 ≤ q
  · have hq' : (q : ℝ) = 0 ∨ (q : ℝ) = 1 := by
      rcases hq with h | h
      · left; exact_mod_cast le_antisymm h h0
      · right; exact_mod_cast le_antisymm h1 h
    rw [if_pos hq, if_pos hq']
  · have hq2 := hq
    push_neg at hq2
    obtain ⟨hl, hr⟩ := hq2
    have hq' : ¬ ((q : ℝ) = 0 ∨ (q : ℝ) = 1) := by
      push_neg
      constructor
      · have : (0 : ℝ) < (q : ℝ) := by exact_mod_cast hl
        exact ne_of_gt this
      · have : (q : ℝ) < 1 := by exact_mod_cast hr
        exact ne_of_lt this
    rw [if_neg hq, if_neg hq']

theorem sample_size_le (s : ℕ) (h : 0 < s) : sample_size s ≤ s := by
  rw [sample_size, if_neg (by omega)]
  have := Nat.div_le_self s 5
  omega

theorem sample_size_pos (s : ℕ) (h : 0 < s) : 0 < sample_size s := by
  rw [sample_size, if_neg (by omega)]
  exact lt_of_lt_of_le one_pos (le_max_left 1 _)

theorem qber_nonneg (n : ℕ) (p e : ℚ) (r : BB84Sample) : 0 ≤ qber_of n p e r := by
  simp only [qber_of]
  split
  · positivity
  · exact le_refl 0

theorem qber_le_one (n : ℕ) (p e : ℚ) (r : BB84Sample)
    (hs : r.qber_sample.length = sample_size (a_sift n p r).length) :
    qber_of n p e r ≤ 1 := by
  simp only [qber_of]
  split
  · rename_i h
    obtain ⟨hpos, hle⟩ := h
    have hcount : qber_mismatches n p e r ≤ sample_size (a_sift n p r).length := by
      rw [← hs]
      exact List.countP_le_length _
    rw [div_le_one (by exact_mod_cast hpos)]
    exact_mod_cast hcount
  · norm_num

theorem R_secure_le (s : ℕ) (q : ℚ) : R_secure s q ≤ s := by
  rw [R_secure]
  have hc : max 0 (1 - bin_entropy q - 1 / 10) ≤ 1 := by
    have := bin_entropy_nonneg q
    rw [max_le_iff]
    constructor
    · norm_num
    · linarith
  have hmul : (s : ℝ) * max 0 (1 - bin_entropy q - 1 / 10) ≤ (s : ℝ) := by
    calc (s : ℝ) * max 0 (1 - bin_entropy q - 1 / 10) ≤ (s : ℝ) * 1 :=
          mul_le_mul_of_nonneg_left hc (Nat.cast_nonneg s)
    _ = (s : ℝ) := mul_one _
  have hfl : ⌊(s : ℝ) * max 0 (1 - bin_entropy q - 1 / 10)⌋ ≤ (s : ℤ) := by
    have h2 := Int.floor_le_floor hmul
    rwa [Int.floor_natCast] at h2
  have hmax : max 0 ⌊(s : ℝ) * max 0 (1 - bin_entropy q - 1 / 10)⌋ ≤ (s : ℤ) :=
    max_le (by positivity) hfl
  exact Int.toNat_le.mpr hmax

theorem R_secure_eq_floor (s : ℕ) (q : ℚ) :
    (R_secure s q : ℤ) = ⌊(s : ℝ) * max 0 (1 - bin_entropy q - 1 / 10)⌋ := by
  rw [R_secure]
  have h0 : 0 ≤ ⌊(s : ℝ) * max 0 (1 - bin_entropy q - 1 / 10)⌋ :=
    Int.floor_nonneg.mpr (mul_nonneg (Nat.cast_nonneg s) (le_max_left 0 _))
  rw [max_eq_right h0, Int.toNat_of_nonneg h0]

theorem a_sift_length_le (n : ℕ) (p : ℚ) (r : BB84Sample) :
    (a_sift n p r).length ≤ n := by
  rw [a_sift, List.length_map, sifted_indices]
  calc ((List.range n).filter _).length ≤ (List.range n).length :=
        List.length_filter_le _ _
  _ = n := List.length_range n

theorem b_sift_length (n : ℕ) (p e : ℚ) (r : BB84Sample) :
    (b_sift n p e r).length = (a_sift n p r).length := by
  rw [a_sift, b_sift, List.length_map, List.length_map]

/-! ### Claim C4: session result bounds -/

/-- C4: for all valid session parameters (positive photon count, probabilities
in [0,1]) and every well-formed randomness oracle, the session result
satisfies sifted ≤ sent, secure_bits ≤ sifted, 0 ≤ qber ≤ 1, and the key
material has length exactly secure_bits. -/
theorem C4_session_bounds (n : ℕ) (p e : ℚ) (r : BB84Sample)
    (hn : 0 < n) (hp0 : 0 ≤ p) (hp1 : p ≤ 1) (he0 : 0 ≤ e) (he1 : e ≤ 1)
    (hwf : r.wf n)
    (hs : r.qber_sample.length = sample_size (a_sift n p r).length) :
    (transmit_bb84 n p e r).n_sifted ≤ (transmit_bb84 n p e r).n_sent ∧
    (transmit_bb84 n p e r).R_secure_bits ≤ (transmit_bb84 n p e r).n_sifted ∧
    0 ≤ (transmit_bb84 n p e r).qber ∧ (transmit_bb84 n p e r).qber ≤ 1 ∧
    (transmit_bb84 n p e r).sifted_key.length = (transmit_bb84 n p e r).R_secure_bits := by
  simp only [transmit_bb84]
  refine ⟨a_sift_length_le n p r, R_secure_le _ _, qber_nonneg n p e r,
    qber_le_one n p e r hs, ?_⟩
  rw [List.length_take, b_sift_length, min_eq_left (R_secure_le _ _)]

/-- Witness for C4 on a concrete 2-photon session. -/
theorem C4_session_bounds_witness :
    (transmit_bb84 2 1 0 exSession).n_sifted ≤ (transmit_bb84 2 1 0 exSession).n_sent ∧
    (transmit_bb84 2 1 0 exSession).R_secure_bits ≤ (transmit_bb84 2 1 0 exSession).n_sifted ∧
    0 ≤ (transmit_bb84 2 1 0 exSession).qber ∧ (transmit_bb84 2 1 0 exSession).qber ≤ 1 ∧
    (transmit_bb84 2 1 0 exSession).sifted_key.length =
      (transmit_bb84 2 1 0 exSession).R_secure_bits :=
  C4_session_bounds 2 1 0 exSession (by decide) (by decide) (by decide) (by decide)
    (by decide) ⟨rfl, rfl, rfl, rfl, rfl, rfl⟩ (by decide)

/-! ### Claim C5: secure-rate formula -/

/-- C5: the secure-bit count of a session equals
`floor(sifted * max(0, 1 - H2(QBER) - leak_ec))` with `leak_ec = 0.1`, where
`H2` is the binary Shannon entropy in bits with the convention
`H2(0) = H2(1) = 0` (no logarithm singularity at qber 0 or 1). -/
theorem C5_secure_rate_formula (n : ℕ) (p e : ℚ) (r : BB84Sample)
    (hs : r.qber_sample.length = sample_size (a_sift n p r).length) :
    ((transmit_bb84 n p e r).R_secure_bits : ℤ) =
      ⌊((transmit_bb84 n p e r).n_sifted : ℝ) *
        max 0 (1 - H2 ((transmit_bb84 n p e r).qber : ℝ) - 1 / 10)⌋ := by
  simp only [transmit_bb84]
  rw [R_secure_eq_floor,
    bin_entropy_eq_H2 _ (qber_nonneg n p e r) (qber_le_one n p e r hs)]

/-- Witness for C5 on a concrete 2-photon session. -/
theorem C5_secure_rate_formula_witness :
    ((transmit_bb84 2 1 0 exSession).R_secure_bits : ℤ) =
      ⌊((transmit_bb84 2 1 0 exSession).n_sifted : ℝ) *
        max 0 (1 - H2 ((transmit_bb84 2 1 0 exSession).qber : ℝ) - 1 / 10)⌋ :=
  C5_secure_rate_formula 2 1 0 exSession (by decide)

/-! ### Claim C6: QBER sampling -/

/-- C6 counterexample: at sifted count 6 the code computes a sample-size
request of `max(1, int(0.2 * 6)) = 1` (truncation), while the claim's formula
`max(1, ceil(0.2 * 6)) = 2`; a 6-sifted run is realizable (all six photons
arrive with agreeing bases). -/
theorem C6_sample_size_counterexample :
    (a_sift 6 1 exSixSifted).length = 6 ∧
    sample_size 6 = 1 ∧
    max 1 (Int.toNat ⌈(6 : ℚ) * (1 / 5)⌉) = 2 := by
  refine ⟨by decide, by decide, ?_⟩
  have hc : ⌈(6 : ℚ) * (1 / 5)⌉ = 2 := by
    rw [Int.ceil_eq_iff]
    norm_num
  rw [hc]
  rfl

/-- C6 (amended): during QBER estimation, when sifted > 0 the sample drawn
from the sifted indices has size exactly `max(1, floor(0.2 * sifted))`
(Python `int` truncates; the claim said ceiling), is drawn without
replacement (the `random.sample` contract, carried by the oracle
hypotheses), and qber equals the number of sender/receiver mismatches on the
sample divided by the sample size; when sifted = 0, qber = 0. -/
theorem C6_qber_estimation (n : ℕ) (p e : ℚ) (r : BB84Sample)
    (hs : r.qber_sample.length = sample_size (a_sift n p r).length)
    (hnd : r.qber_sample.Nodup)
    (hran : ∀ k ∈ r.qber_sample, k < (a_sift n p r).length) :
    ((a_sift n p r).length = 0 → (transmit_bb84 n p e r).qber = 0) ∧
    (0 < (a_sift n p r).length →
      sample_size (a_sift n p r).length = max 1 ((a_sift n p r).length / 5) ∧
      r.qber_sample.length = max 1 ((a_sift n p r).length / 5) ∧
      (transmit_bb84 n p e r).qber =
        (qber_mismatches n p e r : ℚ) / (r.qber_sample.length : ℚ)) := by
  constructor
  · intro h0
    simp [transmit_bb84, qber_of, h0, sample_size]
  · intro hpos
    have h1 : sample_size (a_sift n p r).length = max 1 ((a_sift n p r).length / 5) := by
      rw [sample_size, if_neg (by omega)]
    refine ⟨h1, by rw [hs, h1], ?_⟩
    simp only [transmit_bb84, qber_of]
    rw [if_pos ⟨sample_size_pos _ hpos, sample_size_le _ hpos⟩, ← hs]

/-- Witness for C6 (amended) on a concrete 2-photon session. -/
theorem C6_qber_estimation_witness :
    ((a_sift 2 1 exSession).length = 0 → (transmit_bb84 2 1 0 exSession).qber = 0) ∧
    (0 < (a_sift 2 1 exSession).length →
      sample_size (a_sift 2 1 exSession).length = max 1 ((a_sift 2 1 exSession).length / 5) ∧
      exSession.qber_sample.length = max 1 ((a_sift 2 1 exSession).length / 5) ∧
      (transmit_bb84 2 1 0 exSession).qber =
        (qber_mismatches 2 1 0 exSession : ℚ) / (exSession.qber_sample.length : ℚ)) :=
  C6_qber_estimation 2 1 0 exSession (by decide) (by decide) (by decide)

/-! ### Claim C7: no parameter validation -/

/-- C7: the code does not reject out-of-range probabilities.  With
`transmission_probability = 2` and `error_probability = -1`, both outside
[0,1], the simulation runs and returns a normal session result — the photon
with arrival draw 1 "arrives" because `1 < 2` — instead of failing with an
InvalidParameter error as the spec requires of the implementation. -/
theorem C7_no_validation :
    (transmit_bb84 1 2 (-1) exOutOfRange).n_sent = 1 ∧
    (transmit_bb84 1 2 (-1) exOutOfRange).n_sifted = 1 ∧
    (transmit_bb84 1 2 (-1) exOutOfRange).sifted_key.length =
      (transmit_bb84 1 2 (-1) exOutOfRange).R_secure_bits :=
  ⟨rfl, by decide,
   by
     have hb : (b_sift 1 2 (-1) exOutOfRange).length = (a_sift 1 2 exOutOfRange).length :=
       b_sift_length 1 2 (-1) exOutOfRange
     simp only [transmit_bb84]
     rw [List.length_take, hb, min_eq_left (R_secure_le _ _)]⟩

/-! ### Claim C8: zero-photon session -/

/-- C8: a session with photon_count = 0 succeeds without error for any
probabilities in [0,1] and any oracle: sent, sifted and secure_bits are all
0, qber = 0, the key material is empty, and no division by zero occurs
(the qber branch computes no quotient). -/
theorem C8_zero_photons (p e : ℚ) (r : BB84Sample)
    (hp0 : 0 ≤ p) (hp1 : p ≤ 1) (he0 : 0 ≤ e) (he1 : e ≤ 1) :
    transmit_bb84 0 p e r =
      { n_sent := 0, n_sifted := 0, qber := 0, R_secure_bits := 0, sifted_key := [] } := by
  have ha : a_sift 0 p r = [] := by simp [a_sift, sifted_indices]
  have hb : b_sift 0 p e r = [] := by simp [b_sift, sifted_indices]
  have hq : qber_of 0 p e r = 0 := by
    simp [qber_of, ha, sample_size]
  have hR : R_secure 0 0 = 0 := by
    rw [R_secure]
    simp
  simp [transmit_bb84, ha, hb, hq, hR]

/-- Witness for C8 at concrete in-range probabilities. -/
theorem C8_zero_photons_witness :
    transmit_bb84 0 1 0 exEmptySession =
      { n_sent := 0, n_sifted := 0, qber := 0, R_secure_bits := 0, sifted_key := [] } :=
  C8_zero_photons 1 0 exEmptySession (by decide) (by decide) (by decide) (by decide)

end BioSatQ
